import Mathlib

/-!
Verification of the ezjson path-based property lookup engine.

The definitions below are a shallow embedding of `ezjson.go`
(the superseding implementation with `GetPropertyWithType`, typed errors
and options).  Go's `interface{}` tree produced by `encoding/json` with
`UseNumber` is a closed tagged union here; `json.Number` is its lossless
source text.  Go's `(value, error)` return convention is `Except`, and
the outer `Option` marks a run-time panic (`none`), so that panic
freedom is a provable statement rather than an assumption.
-/

set_option autoImplicit false

namespace EzJson

/-- The generic JSON value tree produced by the decoder: Go's
`interface{}` holding `nil`, `bool`, `json.Number`, `string`,
`[]interface{}` or `map[string]interface{}`.  An object is a key-value
list (a Go map never holds a key twice; lookup takes the first match). -/
inductive Value where
  | null
  | boolVal (b : Bool)
  | number (s : String)
  | strVal (s : String)
  | arr (elems : List Value)
  | obj (fields : List (String × Value))

/-- Go's `intf == nil` test: the decoded value is JSON null. -/
def Value.isNull : Value → Bool
  | .null => true
  | _ => false

/-- Go's comma-ok type assertion `intf.([]interface{})`. -/
def Value.asArr : Value → Option (List Value)
  | .arr a => some a
  | _ => none

/-- Go's comma-ok type assertion `intf.(map[string]interface{})`. -/
def Value.asObj : Value → Option (List (String × Value))
  | .obj m => some m
  | _ => none

/-- One element of the variadic `keys ...interface{}` argument, as seen
by the `switch key.(type)` in `GetPropertyWithType`: a Go `int`, a
`string`, an `Option` (a named integer type, `ErrorOnNull = 1`), or a
value of any other dynamic type, carried here as its `fmt.Sprint`
rendering (the only use the code makes of such a value). -/
inductive GoKey where
  | intKey (k : Int)
  | strKey (s : String)
  | optKey (o : Int)
  | otherKey (txt : String)
  deriving DecidableEq

/-- The error values of the package: `*KeyError{Msg, Idx, Key}`,
`*NullError{Key}`, and `*strconv.NumError{Func, Num, Err}` as produced
by `json.Number.Int64`/`Float64` (its `Err` field rendered by its
message, "invalid syntax" or "value out of range"). -/
inductive GoError where
  | keyError (msg : String) (idx : Nat) (key : String)
  | nullError (key : String)
  | numError (fn : String) (num : String) (kind : String)
  deriving DecidableEq

instance {ε α : Type} [DecidableEq ε] [DecidableEq α] : DecidableEq (Except ε α) := fun a b =>
  match a, b with
  | Except.ok x, Except.ok y =>
    if h : x = y then isTrue (by rw [h]) else isFalse (fun hc => by cases hc; exact h rfl)
  | Except.error x, Except.error y =>
    if h : x = y then isTrue (by rw [h]) else isFalse (fun hc => by cases hc; exact h rfl)
  | Except.ok _, Except.error _ => isFalse (fun hc => by cases hc)
  | Except.error _, Except.ok _ => isFalse (fun hc => by cases hc)

/-- The mutable locals of `GetPropertyWithType`'s loop, minus the loop
counter: `intf`, `skey`, `returnErrorOnNull` and `expectOptions`. -/
structure Walked where
  cur : Value
  skey : String
  ren : Bool
  eo : Bool

/-- Go map indexing `m[k]` with the comma-ok form. -/
def lookupGo : List (String × Value) → String → Option Value
  | [], _ => none
  | (k, v) :: rest, s => if k = s then some v else lookupGo rest s

/-- Stringification `fmt.Sprint("#v", k)` of an `Option` key, as used in
the two error branches (the first operand is a string, so no space is
inserted, and an `Option` prints as its integer value). -/
def optKeyStr (o : Int) : String := "#v" ++ toString o

/-- The `for idx, key := range keys` loop of `GetPropertyWithType`,
walking the tree segment by segment.  `i` is the loop index of the
first remaining key.  `none` stands for a run-time panic; the code's
only unguarded indexing `a[k]` sits behind its bounds check, and panic
freedom is proved below, not assumed. -/
def walk : List GoKey → Nat → Walked → Option (Except GoError Walked)
  | [], _, st => some (Except.ok st)
  | GoKey.intKey k :: rest, i, st =>
    match Value.asArr st.cur with
    | none => some (Except.error (GoError.keyError "No array found" i (toString k)))
    | some a =>
      if k < 0 ∨ (a.length : Int) ≤ k then
        some (Except.error (GoError.keyError "Array index out of bounds" i (toString k)))
      else
        match a[k.toNat]? with
        | some v => walk rest (i + 1) ⟨v, toString k, st.ren, false⟩
        | none => none
  | GoKey.strKey s :: rest, i, st =>
    match Value.asObj st.cur with
    | none => some (Except.error (GoError.keyError "No object found" i s))
    | some m =>
      match lookupGo m s with
      | some v => walk rest (i + 1) ⟨v, s, st.ren, false⟩
      | none => some (Except.error (GoError.keyError "Object property not found" i s))
  | GoKey.optKey o :: rest, i, st =>
    if st.eo then
      walk rest (i + 1) ⟨st.cur, st.skey, if o = 1 then true else st.ren, st.eo⟩
    else
      some (Except.error (GoError.keyError "Options must be specified before the actual keys" i (optKeyStr o)))
  | GoKey.otherKey t :: _, i, _ =>
    some (Except.error (GoError.keyError "Not int or string" i ("#v" ++ t)))

/-- The `switch dType` block: `ok` stays at its initial `true` for any
`dType` other than the four supported names. -/
def typeOk (dType : String) (v : Value) : Bool :=
  match dType with
  | "array" => (Value.asArr v).isSome
  | "number" => (match v with | Value.number _ => true | _ => false)
  | "string" => (match v with | Value.strVal _ => true | _ => false)
  | "bool" => (match v with | Value.boolVal _ => true | _ => false)
  | _ => true

/-- The initial loop state: `skey, idx, ok, returnErrorOnNull,
expectOptions := "", 0, true, false, true`. -/
def initSt (r : Value) : Walked := ⟨r, "", false, true⟩

/-- `GetPropertyWithType` from `ezjson.go`.  After the loop, the type
check and the null check run on the final state.  The index `0` in the
type-mismatch error is the outer `idx` local: the loop's
`for idx, key := range keys` short-declares a fresh `idx` scoped to the
loop, so the outer one is never updated and still holds `0` here. -/
def GetPropertyWithType (intf : Value) (dType : String) (keys : List GoKey) :
    Option (Except GoError Value) :=
  match walk keys 0 (initSt intf) with
  | none => none
  | some (Except.error e) => some (Except.error e)
  | some (Except.ok st) =>
    if (!typeOk dType st.cur) && (!st.cur.isNull) then
      some (Except.error (GoError.keyError ("Property is not of type " ++ dType) 0 st.skey))
    else if st.cur.isNull && st.ren then
      some (Except.error (GoError.nullError st.skey))
    else
      some (Except.ok st.cur)

/-- `GetProperty`: the untyped accessor, `dType = ""`. -/
def GetProperty (intf : Value) (keys : List GoKey) : Option (Except GoError Value) :=
  GetPropertyWithType intf "" keys

/-- `GetArray`: on success the comma-dropped cast `value.([]interface{})`
yields the array, or the nil slice (here `[]`) when the value is null. -/
def GetArray (intf : Value) (keys : List GoKey) : Option (Except GoError (List Value)) :=
  match GetPropertyWithType intf "array" keys with
  | none => none
  | some (Except.error e) => some (Except.error e)
  | some (Except.ok v) => some (Except.ok ((Value.asArr v).getD []))

/-- `GetNumber`: the `json.Number` result is its lossless text; the
comma-dropped cast leaves the zero value `json.Number("")` on null. -/
def GetNumber (intf : Value) (keys : List GoKey) : Option (Except GoError String) :=
  match GetPropertyWithType intf "number" keys with
  | none => none
  | some (Except.error e) => some (Except.error e)
  | some (Except.ok v) => some (Except.ok (match v with | Value.number s => s | _ => ""))

/-- `GetString`. -/
def GetString (intf : Value) (keys : List GoKey) : Option (Except GoError String) :=
  match GetPropertyWithType intf "string" keys with
  | none => none
  | some (Except.error e) => some (Except.error e)
  | some (Except.ok v) => some (Except.ok (match v with | Value.strVal s => s | _ => ""))

/-- `GetBool`. -/
def GetBool (intf : Value) (keys : List GoKey) : Option (Except GoError Bool) :=
  match GetPropertyWithType intf "bool" keys with
  | none => none
  | some (Except.error e) => some (Except.error e)
  | some (Except.ok v) => some (Except.ok (match v with | Value.boolVal b => b | _ => false))

/-- Decimal value of a digit list, most significant first, as
accumulated by `strconv`. -/
def decDigitsVal (ds : List Char) : Nat :=
  ds.foldl (fun a c => a * 10 + (c.toNat - 48)) 0

/-- `json.Number.Int64`, i.e. `strconv.ParseInt(string(n), 10, 64)`:
an optional sign followed by at least one decimal digit, with the
int64 range checks of `ParseInt` (cutoff `2^63`; a negative value may
reach `-2^63`).  Go's accompanying clamped integer result is dropped:
callers look at the error. -/
def goParseInt64 (s : String) : Except GoError Int :=
  match s.toList with
  | [] => Except.error (GoError.numError "ParseInt" s "invalid syntax")
  | c :: rest =>
    let neg := c = '-'
    let ds := if c = '+' ∨ c = '-' then rest else c :: rest
    if ds.isEmpty || !(ds.all Char.isDigit) then
      Except.error (GoError.numError "ParseInt" s "invalid syntax")
    else
      let n := decDigitsVal ds
      if neg then
        if 2 ^ 63 < n then Except.error (GoError.numError "ParseInt" s "value out of range")
        else Except.ok (-(n : Int))
      else
        if 2 ^ 63 ≤ n then Except.error (GoError.numError "ParseInt" s "value out of range")
        else Except.ok (n : Int)

/-- `GetInt`: `GetNumber` followed by `num.Int64()`. -/
def GetInt (intf : Value) (keys : List GoKey) : Option (Except GoError Int) :=
  match GetNumber intf keys with
  | none => none
  | some (Except.error e) => some (Except.error e)
  | some (Except.ok s) => some (goParseInt64 s)

/-- ASCII case folding as done by `strconv`'s case-insensitive prefix
comparison (letters are compared with bit `0x20` set). -/
def foldCase (c : Char) : Nat :=
  if 65 ≤ c.toNat ∧ c.toNat ≤ 90 then c.toNat + 32 else c.toNat

/-- The special values accepted by `strconv.ParseFloat`: optionally
signed `inf`/`infinity` and unsigned `nan`, case-insensitively. -/
def goSpecialOk (s : String) : Bool :=
  let l := s.toList.map foldCase
  decide (l = "inf".toList.map foldCase) || decide (l = "+inf".toList.map foldCase) ||
    decide (l = "-inf".toList.map foldCase) || decide (l = "infinity".toList.map foldCase) ||
    decide (l = "+infinity".toList.map foldCase) || decide (l = "-infinity".toList.map foldCase) ||
    decide (l = "nan".toList.map foldCase)

/-- The decimal syntax accepted by `strconv.ParseFloat`: optional sign,
digits with at most one dot and at least one digit overall, optional
exponent part with at least one digit.  Underscored and hexadecimal
literal forms, which a JSON decoder can never produce, are not
modelled (treated as invalid); nor is the `ErrRange` overflow check on
syntactically valid input, which no claim touches. -/
def goFloatSyntaxOk (s : String) : Bool :=
  match s.toList with
  | [] => false
  | c :: rest =>
    let cs := if c = '+' ∨ c = '-' then rest else c :: rest
    let d1 := cs.takeWhile Char.isDigit
    let r1 := cs.dropWhile Char.isDigit
    let fr := match r1 with
      | '.' :: rr => (rr.takeWhile Char.isDigit, rr.dropWhile Char.isDigit)
      | _ => ([], r1)
    if d1.length + fr.1.length = 0 then false
    else
      match fr.2 with
      | [] => true
      | e :: er =>
        if e = 'e' ∨ e = 'E' then
          let ed := match er with
            | c2 :: rr => if c2 = '+' ∨ c2 = '-' then rr else er
            | [] => er
          !ed.isEmpty && ed.all Char.isDigit
        else false

/-- `GetFloat`: `GetNumber` followed by `num.Float64()`.  The float64
result is modelled by the lossless text it was converted from; the
claims about `GetFloat` only concern which calls fail. -/
def GetFloat (intf : Value) (keys : List GoKey) : Option (Except GoError String) :=
  match GetNumber intf keys with
  | none => none
  | some (Except.error e) => some (Except.error e)
  | some (Except.ok s) =>
    if goSpecialOk s || goFloatSyntaxOk s then some (Except.ok s)
    else some (Except.error (GoError.numError "ParseFloat" s "invalid syntax"))

/-- Shift the position recorded in a resolution error by one, leaving
the other error kinds alone. -/
def shiftErr : GoError → GoError
  | GoError.keyError m j k => GoError.keyError m (j + 1) k
  | e => e

/-- Shift an in-loop outcome's error position by one. -/
def shiftRes : Option (Except GoError Walked) → Option (Except GoError Walked)
  | some (Except.error e) => some (Except.error (shiftErr e))
  | r => r

/-- Set the sticky `returnErrorOnNull` flag in a successful outcome. -/
def forceRen : Option (Except GoError Walked) → Option (Except GoError Walked)
  | some (Except.ok st) => some (Except.ok ⟨st.cur, st.skey, true, st.eo⟩)
  | r => r

/-- The stringified key a navigational segment writes into `skey`
(`none` for an option or unsupported segment, which leave it alone). -/
def navStr : GoKey → Option String
  | GoKey.intKey k => some (toString k)
  | GoKey.strKey s => some s
  | _ => none

/-- The stringified key of the last navigational segment of a path, or
the given default when there is none: the value `skey` holds after the
loop has processed the whole path. -/
def lastNavStr (keys : List GoKey) (dflt : String) : String :=
  keys.foldl (fun acc k => (navStr k).getD acc) dflt

/-- Does the loop's outcome conform to the error contract: no panic, and
any error a `KeyError`? -/
def walkOutcomeOk : Option (Except GoError Walked) → Bool
  | none => false
  | some (Except.ok _) => true
  | some (Except.error (GoError.keyError _ _ _)) => true
  | some (Except.error _) => false

/-- Does an accessor-level outcome conform to the resolver's error
contract: no panic, and any error a `KeyError` or a `NullError`? -/
def typedOutcome : Option (Except GoError Value) → Bool
  | none => false
  | some (Except.ok _) => true
  | some (Except.error (GoError.keyError _ _ _)) => true
  | some (Except.error (GoError.nullError _)) => true
  | some (Except.error (GoError.numError _ _ _)) => false

/-- Modelled from the spec: the exact rational value of a number built
from a sign, integer digits, fraction digits and a decimal exponent
("a lossless ... encoding of a JSON number"). -/
def mantVal (neg : Bool) (ip fp : List Char) (ex : Int) : ℚ :=
  (cond neg (-1) 1) * ((decDigitsVal ip : ℚ) + (decDigitsVal fp : ℚ) / 10 ^ fp.length) *
    (10 : ℚ) ^ ex

/-- Modelled from the spec: value of the exponent tail `er` (after the
`e`), applied to the mantissa parts already read. -/
def expTail (neg : Bool) (ip fp : List Char) (er : List Char) : Option ℚ :=
  let sd : Bool × List Char := match er with
    | c :: tl => if c = '+' then (false, tl) else if c = '-' then (true, tl) else (false, er)
    | [] => (false, er)
  if sd.2.isEmpty || !(sd.2.all Char.isDigit) then none
  else some (mantVal neg ip fp (cond sd.1 (-(decDigitsVal sd.2 : Int)) (decDigitsVal sd.2 : Int)))

/-- Modelled from the spec: the exact rational value denoted by a
lossless numeric text ("represent numbers losslessly ... preserving
precision for both integer and floating interpretation").  Follows the
JSON number grammar, extended with an optional leading plus so that
every text `strconv` can parse an integer from also has a value here.
Partial: texts denoting no number give `none`. -/
def jsonNumValueQ (s : String) : Option ℚ :=
  match s.toList with
  | [] => none
  | c :: rest =>
    let neg := c = '-'
    let cs := if c = '+' ∨ c = '-' then rest else c :: rest
    let ip := cs.takeWhile Char.isDigit
    let r1 := cs.dropWhile Char.isDigit
    if ip.isEmpty then none
    else
      match r1 with
      | [] => some (mantVal neg ip [] 0)
      | '.' :: rr =>
        let fp := rr.takeWhile Char.isDigit
        let r2 := rr.dropWhile Char.isDigit
        if fp.isEmpty then none
        else
          match r2 with
          | [] => some (mantVal neg ip fp 0)
          | e :: er => if e = 'e' ∨ e = 'E' then expTail neg ip fp er else none
      | e :: er => if e = 'e' ∨ e = 'E' then expTail neg ip [] er else none

/-! Helper lemmas about the loop. -/

theorem walk_append (pre post : List GoKey) (i : Nat) (st : Walked) :
    walk (pre ++ post) i st =
      match walk pre i st with
      | some (Except.ok st2) => walk post (i + pre.length) st2
      | r => r := by
  induction pre generalizing i st with
  | nil => simp [walk]
  | cons k rest ih =>
    have hlen : i + 1 + rest.length = i + (rest.length + 1) := by omega
    cases k with
    | intKey n =>
      simp only [List.cons_append, walk]
      cases hA : Value.asArr st.cur with
      | none => simp
      | some a =>
        by_cases hb : n < 0 ∨ (a.length : Int) ≤ n
        · simp [hb]
        · cases hg : a[n.toNat]? with
          | none => simp [hb, hg]
          | some v => simp [hb, hg, ih, hlen]
    | strKey s =>
      simp only [List.cons_append, walk]
      cases hO : Value.asObj st.cur with
      | none => simp
      | some m =>
        cases hL : lookupGo m s with
        | none => simp [hL]
        | some v => simp [hL, ih, hlen]
    | optKey o =>
      simp only [List.cons_append, walk]
      cases hE : st.eo with
      | false => simp
      | true => simp [ih, hlen]
    | otherKey t =>
      simp [walk]

theorem walk_shift (keys : List GoKey) (i : Nat) (st : Walked) :
    walk keys (i + 1) st = shiftRes (walk keys i st) := by
  induction keys generalizing i st with
  | nil => simp [walk, shiftRes]
  | cons k rest ih =>
    cases k with
    | intKey n =>
      simp only [walk]
      cases hA : Value.asArr st.cur with
      | none => simp [shiftRes, shiftErr]
      | some a =>
        by_cases hb : n < 0 ∨ (a.length : Int) ≤ n
        · simp [hb, shiftRes, shiftErr]
        · cases hg : a[n.toNat]? with
          | none => simp [hb, hg, shiftRes]
          | some v => simp [hb, hg, ih]
    | strKey s =>
      simp only [walk]
      cases hO : Value.asObj st.cur with
      | none => simp [shiftRes, shiftErr]
      | some m =>
        cases hL : lookupGo m s with
        | none => simp [hL, shiftRes, shiftErr]
        | some v => simp [hL, ih]
    | optKey o =>
      simp only [walk]
      cases hE : st.eo with
      | false => simp [shiftRes, shiftErr]
      | true => simp [ih]
    | otherKey t =>
      simp [walk, shiftRes, shiftErr]

theorem walk_state (keys : List GoKey) (i : Nat) (st st2 : Walked)
    (h : walk keys i st = some (Except.ok st2)) :
    (st2.ren = true ↔ (st.ren = true ∨ GoKey.optKey 1 ∈ keys))
    ∧ st2.skey = lastNavStr keys st.skey
    ∧ (st2.eo = true ↔ (st.eo = true ∧ ∀ g ∈ keys, navStr g = none)) := by
  induction keys generalizing i st with
  | nil =>
    simp only [walk, Option.some.injEq, Except.ok.injEq] at h
    subst h
    simp [lastNavStr]
  | cons k rest ih =>
    cases k with
    | intKey n =>
      simp only [walk] at h
      cases hA : Value.asArr st.cur with
      | none => rw [hA] at h; dsimp only at h; simp at h
      | some a =>
        rw [hA] at h; dsimp only at h
        by_cases hb : n < 0 ∨ (a.length : Int) ≤ n
        · rw [if_pos hb] at h; simp at h
        · rw [if_neg hb] at h
          cases hg : a[n.toNat]? with
          | none => rw [hg] at h; simp at h
          | some v =>
            rw [hg] at h; dsimp only at h
            obtain ⟨ih1, ih2, ih3⟩ := ih _ _ h
            refine ⟨?_, ?_, ?_⟩
            · simpa using ih1
            · simpa [lastNavStr, navStr] using ih2
            · rw [ih3]; simp [navStr]
    | strKey s =>
      simp only [walk] at h
      cases hO : Value.asObj st.cur with
      | none => rw [hO] at h; dsimp only at h; simp at h
      | some m =>
        rw [hO] at h; dsimp only at h
        cases hL : lookupGo m s with
        | none => rw [hL] at h; simp at h
        | some v =>
          rw [hL] at h; dsimp only at h
          obtain ⟨ih1, ih2, ih3⟩ := ih _ _ h
          refine ⟨?_, ?_, ?_⟩
          · simpa using ih1
          · simpa [lastNavStr, navStr] using ih2
          · rw [ih3]; simp [navStr]
    | optKey o =>
      simp only [walk] at h
      cases hE : st.eo with
      | false =>
        rw [hE] at h
        rw [if_neg (by simp)] at h
        simp at h
      | true =>
        rw [hE] at h
        rw [if_pos rfl] at h
        obtain ⟨ih1, ih2, ih3⟩ := ih _ _ h
        refine ⟨?_, ?_, ?_⟩
        · by_cases ho : o = 1
          · subst ho
            rw [if_pos rfl] at ih1
            simp [ih1]
          · have ho2 : ¬((1 : Int) = o) := fun hh => ho hh.symm
            rw [if_neg ho] at ih1
            simp [ih1, ho2]
        · simpa [lastNavStr, navStr] using ih2
        · rw [ih3]; simp [navStr, hE]
    | otherKey t =>
      simp only [walk] at h
      simp at h

theorem walk_total (keys : List GoKey) (i : Nat) (st : Walked) :
    walkOutcomeOk (walk keys i st) = true := by
  induction keys generalizing i st with
  | nil => simp [walk, walkOutcomeOk]
  | cons k rest ih =>
    cases k with
    | intKey n =>
      simp only [walk]
      cases hA : Value.asArr st.cur with
      | none => simp [walkOutcomeOk]
      | some a =>
        by_cases hb : n < 0 ∨ (a.length : Int) ≤ n
        · simp [hb, walkOutcomeOk]
        · cases hg : a[n.toNat]? with
          | none =>
            exfalso
            push_neg at hb
            have hlt : n.toNat < a.length := by omega
            rw [List.getElem?_eq_getElem hlt] at hg
            cases hg
          | some v => simp [hb, hg, ih]
    | strKey s =>
      simp only [walk]
      cases hO : Value.asObj st.cur with
      | none => simp [walkOutcomeOk]
      | some m =>
        cases hL : lookupGo m s with
        | none => simp [hL, walkOutcomeOk]
        | some v => simp [hL, ih]
    | optKey o =>
      simp only [walk]
      cases hE : st.eo with
      | false => simp [walkOutcomeOk]
      | true => simp [ih]
    | otherKey t => simp [walk, walkOutcomeOk]

theorem forceRen_forceRen (r : Option (Except GoError Walked)) :
    forceRen (forceRen r) = forceRen r := by
  rcases r with _ | (e | st) <;> rfl

theorem walk_ren_true (keys : List GoKey) (i : Nat) (c : Value) (sk : String) (e : Bool) :
    walk keys i ⟨c, sk, true, e⟩ = forceRen (walk keys i ⟨c, sk, false, e⟩) := by
  induction keys generalizing i c sk e with
  | nil => simp [walk, forceRen]
  | cons k rest ih =>
    cases k with
    | intKey n =>
      simp only [walk]
      cases hA : Value.asArr c with
      | none => simp [forceRen]
      | some a =>
        by_cases hb : n < 0 ∨ (a.length : Int) ≤ n
        · simp [hb, forceRen]
        · cases hg : a[n.toNat]? with
          | none => simp [hb, hg, forceRen]
          | some v => simp only [hb, hg, if_false]; exact ih _ _ _ _
    | strKey s =>
      simp only [walk]
      cases hO : Value.asObj c with
      | none => simp [forceRen]
      | some m =>
        cases hL : lookupGo m s with
        | none => simp [hL, forceRen]
        | some v => simp only [hL]; exact ih _ _ _ _
    | optKey o =>
      simp only [walk]
      cases e with
      | false => simp [forceRen]
      | true =>
        simp only [if_true]
        by_cases ho : o = 1
        · rw [if_pos ho, if_pos ho, ih, forceRen_forceRen]
        · rw [if_neg ho, if_neg ho]
          exact ih _ _ _ _
    | otherKey t => simp [walk, forceRen]

theorem typeMsg_ne (d : String) :
    "Property is not of type " ++ d ≠ "Options must be specified before the actual keys" := by
  intro h
  have h2 := congrArg String.data h
  obtain ⟨l⟩ := d
  rw [show ("Property is not of type " ++ String.mk l).data
      = "Property is not of type ".data ++ l from rfl] at h2
  rw [show "Options must be specified before the actual keys".data
      = 'O' :: "ptions must be specified before the actual keys".data from rfl] at h2
  rw [show "Property is not of type ".data ++ l
      = 'P' :: ("roperty is not of type ".data ++ l) from rfl] at h2
  simp at h2

theorem walk_order_err (keys : List GoKey) (i : Nat) (st : Walked) (j : Nat) (key2 : String)
    (h : walk keys i st =
      some (Except.error
        (GoError.keyError "Options must be specified before the actual keys" j key2))) :
    ∃ pre o rest, keys = pre ++ GoKey.optKey o :: rest ∧ j = i + pre.length ∧
      key2 = optKeyStr o ∧
      ∃ st2, walk pre i st = some (Except.ok st2) ∧ st2.eo = false := by
  induction keys generalizing i st with
  | nil => simp [walk] at h
  | cons k rest ih =>
    cases k with
    | intKey n =>
      simp only [walk] at h
      cases hA : Value.asArr st.cur with
      | none => rw [hA] at h; dsimp only at h; simp at h
      | some a =>
        rw [hA] at h; dsimp only at h
        by_cases hb : n < 0 ∨ (a.length : Int) ≤ n
        · rw [if_pos hb] at h; simp at h
        · rw [if_neg hb] at h
          cases hg : a[n.toNat]? with
          | none => rw [hg] at h; simp at h
          | some v =>
            rw [hg] at h; dsimp only at h
            obtain ⟨pre, o, rest2, hkeys, hj, hkey, st3, hwalk, heo⟩ := ih _ _ h
            refine ⟨GoKey.intKey n :: pre, o, rest2, by simp [hkeys], ?_, hkey, st3, ?_, heo⟩
            · rw [List.length_cons]; omega
            · simp only [walk]
              rw [hA]
              dsimp only
              rw [if_neg hb, hg]
              exact hwalk
    | strKey s =>
      simp only [walk] at h
      cases hO : Value.asObj st.cur with
      | none => rw [hO] at h; dsimp only at h; simp at h
      | some m =>
        rw [hO] at h; dsimp only at h
        cases hL : lookupGo m s with
        | none => rw [hL] at h; simp at h
        | some v =>
          rw [hL] at h; dsimp only at h
          obtain ⟨pre, o, rest2, hkeys, hj, hkey, st3, hwalk, heo⟩ := ih _ _ h
          refine ⟨GoKey.strKey s :: pre, o, rest2, by simp [hkeys], ?_, hkey, st3, ?_, heo⟩
          · rw [List.length_cons]; omega
          · simp only [walk]
            rw [hO]
            dsimp only
            rw [hL]
            exact hwalk
    | optKey o =>
      simp only [walk] at h
      cases hE : st.eo with
      | false =>
        rw [hE, if_neg (by simp)] at h
        simp only [Option.some.injEq, Except.error.injEq, GoError.keyError.injEq] at h
        refine ⟨[], o, rest, rfl, ?_, h.2.2.symm, st, by simp [walk], hE⟩
        have h21 := h.2.1
        simp only [List.length_nil, Nat.add_zero]
        omega
      | true =>
        rw [hE, if_pos rfl] at h
        obtain ⟨pre, o2, rest2, hkeys, hj, hkey, st3, hwalk, heo⟩ := ih _ _ h
        refine ⟨GoKey.optKey o :: pre, o2, rest2, by simp [hkeys], ?_, hkey, st3, ?_, heo⟩
        · rw [List.length_cons]; omega
        · simp only [walk]
          rw [hE, if_pos rfl]
          exact hwalk
    | otherKey t =>
      simp only [walk] at h
      simp at h

/-! The claims. -/

/-- C9: for every root value, `GetProperty` (the untyped accessor) with
an empty key sequence returns the root value unchanged with a nil
error, and no type-match check fires (for `dType = ""` the check is a
no-op for every shape of root, null included). -/
theorem c9_empty_path_returns_root (r : Value) :
    GetProperty r [] = some (Except.ok r) := by
  cases r <;> rfl

/-- C1: the claim fails on the code.  At root `{"a": {"b": true}}` with
expected type "string" and path `["a", "b"]`, traversal succeeds, the
final value `true` fails the type check, and the reported `KeyError`
has `Idx = 0` — not 1, the index of the last processed segment —
because the loop's `for idx, key := range` short-declares a fresh `idx`
that shadows the outer one read by the type-mismatch branch.  The `Key`
field does hold the last segment's stringified key. -/
theorem c1_type_mismatch_reports_index_zero :
    GetPropertyWithType (Value.obj [("a", Value.obj [("b", Value.boolVal true)])]) "string"
        [GoKey.strKey "a", GoKey.strKey "b"]
      = some (Except.error (GoError.keyError "Property is not of type string" 0 "b"))
    ∧ GetPropertyWithType (Value.obj [("a", Value.obj [("b", Value.boolVal true)])]) "string"
        [GoKey.strKey "a", GoKey.strKey "b"]
      ≠ some (Except.error (GoError.keyError "Property is not of type string" 1 "b")) := by
  refine ⟨rfl, fun hc => ?_⟩
  have h2 : (some (Except.error (GoError.keyError "Property is not of type string" 0 "b")) :
      Option (Except GoError Value))
      = some (Except.error (GoError.keyError "Property is not of type string" 1 "b")) := hc
  simp at h2

/-- C3: `GetPropertyWithType` is total over every root shape, every
`dType` string and every key sequence (including unsupported segment
types): it never reaches the panic marker, and every failure is a typed
error — a `KeyError` or a `NullError`. -/
theorem c3_resolver_never_panics (intf : Value) (dType : String) (keys : List GoKey) :
    typedOutcome (GetPropertyWithType intf dType keys) = true := by
  have ht := walk_total keys 0 (initSt intf)
  cases hw : walk keys 0 (initSt intf) with
  | none => rw [hw] at ht; simp [walkOutcomeOk] at ht
  | some res =>
    cases res with
    | error e =>
      rw [hw] at ht
      cases e with
      | keyError m j k => simp [GetPropertyWithType, hw, typedOutcome]
      | nullError k => simp [walkOutcomeOk] at ht
      | numError a b c => simp [walkOutcomeOk] at ht
    | ok st =>
      simp only [GetPropertyWithType, hw]
      by_cases h1 : ((!typeOk dType st.cur) && (!st.cur.isNull)) = true
      · rw [if_pos h1]; rfl
      · rw [if_neg h1]
        by_cases h2 : (st.cur.isNull && st.ren) = true
        · rw [if_pos h2]; rfl
        · rw [if_neg h2]; rfl

/-- C2 (amended): when a path resolves to JSON null and `ErrorOnNull`
was not passed, the accessors `GetArray`, `GetNumber`, `GetString` and
`GetBool` return their zero values (nil slice, empty `json.Number`,
empty string, false) with a nil error; `GetInt` and `GetFloat`, which
hand the zero `json.Number("")` on to `strconv`, instead fail with a
conversion error alongside their zero value. -/
theorem c2_null_accessor_results (r : Value) (keys : List GoKey) (sk : String) (e2 : Bool)
    (h : walk keys 0 (initSt r) = some (Except.ok ⟨Value.null, sk, false, e2⟩)) :
    GetArray r keys = some (Except.ok [])
    ∧ GetNumber r keys = some (Except.ok "")
    ∧ GetString r keys = some (Except.ok "")
    ∧ GetBool r keys = some (Except.ok false)
    ∧ GetInt r keys = some (Except.error (GoError.numError "ParseInt" "" "invalid syntax"))
    ∧ GetFloat r keys = some (Except.error (GoError.numError "ParseFloat" "" "invalid syntax")) := by
  have hbase : ∀ d, GetPropertyWithType r d keys = some (Except.ok Value.null) := by
    intro d
    simp [GetPropertyWithType, h, Value.isNull]
  have hnum : GetNumber r keys = some (Except.ok "") := by
    simp only [GetNumber, hbase]
  refine ⟨?_, hnum, ?_, ?_, ?_, ?_⟩
  · simp only [GetArray, hbase]; rfl
  · simp only [GetString, hbase]
  · simp only [GetBool, hbase]
  · simp only [GetInt, hnum]; rfl
  · simp only [GetFloat, hnum]; rfl

/-- Witness for C2: the amended behavior at root null with the empty
path. -/
theorem c2_null_accessor_results_witness :
    GetArray Value.null [] = some (Except.ok [])
    ∧ GetInt Value.null [] = some (Except.error (GoError.numError "ParseInt" "" "invalid syntax")) :=
  ⟨(c2_null_accessor_results Value.null [] "" true rfl).1,
   (c2_null_accessor_results Value.null [] "" true rfl).2.2.2.2.1⟩

/-- C2 counterexample: at root null with the empty path (traversal
resolves to null, `ErrorOnNull` not passed), `GetInt` does not return
its zero value with a nil error as the claim states: it returns a
conversion error. -/
theorem c2_counterexample_getint_on_null :
    walk [] 0 (initSt Value.null) = some (Except.ok (initSt Value.null))
    ∧ GetInt Value.null [] = some (Except.error (GoError.numError "ParseInt" "" "invalid syntax"))
    ∧ GetInt Value.null [] ≠ some (Except.ok 0) := by
  refine ⟨rfl, rfl, fun hc => ?_⟩
  have h2 : (some (Except.error (GoError.numError "ParseInt" "" "invalid syntax")) :
      Option (Except GoError Int)) = some (Except.ok 0) := hc
  simp at h2

/-- C5: when traversal resolves to JSON null, the type-match check is
skipped for every requested type, and the call fails with a
`NullError` carrying the stringified key of the last navigational
segment (the tracked `skey`; option segments never update it, and the
empty string is the convention when the path has none) exactly when
the `ErrorOnNull` option was passed; otherwise null is returned with a
nil error. -/
theorem c5_null_skips_type_check (r : Value) (d : String) (keys : List GoKey)
    (sk : String) (rn e2 : Bool)
    (h : walk keys 0 (initSt r) = some (Except.ok ⟨Value.null, sk, rn, e2⟩)) :
    GetPropertyWithType r d keys =
      (if GoKey.optKey 1 ∈ keys then some (Except.error (GoError.nullError (lastNavStr keys "")))
       else some (Except.ok Value.null)) := by
  obtain ⟨h1, h2, h3⟩ := walk_state keys 0 (initSt r) _ h
  have hsk : sk = lastNavStr keys "" := by simpa [initSt] using h2
  by_cases hmem : GoKey.optKey 1 ∈ keys
  · have hrn : rn = true := by
      simp only [initSt] at h1
      simp [hmem] at h1
      exact h1
    simp [GetPropertyWithType, h, Value.isNull, hrn, hmem, hsk]
  · have hrn : rn = false := by
      cases hrn2 : rn
      · rfl
      · exfalso
        rw [hrn2] at h1
        simp only [initSt] at h1
        exact hmem (by simpa using h1.mp (by trivial))
    simp [GetPropertyWithType, h, Value.isNull, hrn, hmem]

/-- Witness for C5: a path to a null member without `ErrorOnNull`
resolves to null with a nil error, for a typed accessor request. -/
theorem c5_witness :
    GetPropertyWithType (Value.obj [("a", Value.null)]) "string" [GoKey.strKey "a"]
      = some (Except.ok Value.null) := by
  have h := c5_null_skips_type_check (Value.obj [("a", Value.null)]) "string"
      [GoKey.strKey "a"] "a" false false rfl
  simpa using h

/-- C6: after a successfully resolved prefix ending at an array of
length n, an integer segment k at position `pre.length` fails with
"Array index out of bounds" carrying the decimal string of k exactly
when k < 0 or k ≥ n (so also when k = n); when 0 ≤ k < n the loop
continues with the k-th element. -/
theorem c6_array_index_bounds (r : Value) (d : String) (pre rest : List GoKey) (k : Int)
    (l : List Value) (sk : String) (rn e2 : Bool)
    (h : walk pre 0 (initSt r) = some (Except.ok ⟨Value.arr l, sk, rn, e2⟩)) :
    ((k < 0 ∨ (l.length : Int) ≤ k) →
      GetPropertyWithType r d (pre ++ GoKey.intKey k :: rest) =
        some (Except.error
          (GoError.keyError "Array index out of bounds" pre.length (toString k))))
    ∧ (∀ v, l[k.toNat]? = some v → 0 ≤ k →
      walk (pre ++ GoKey.intKey k :: rest) 0 (initSt r) =
        walk rest (pre.length + 1) ⟨v, toString k, rn, false⟩) := by
  constructor
  · intro hb
    have hw : walk (pre ++ GoKey.intKey k :: rest) 0 (initSt r)
        = some (Except.error
            (GoError.keyError "Array index out of bounds" pre.length (toString k))) := by
      rw [walk_append, h]
      dsimp only
      simp only [walk]
      dsimp only [Value.asArr]
      rw [if_pos hb, Nat.zero_add]
    simp [GetPropertyWithType, hw]
  · intro v hv hk
    obtain ⟨hlt, -⟩ := List.getElem?_eq_some.mp hv
    have hb : ¬(k < 0 ∨ (l.length : Int) ≤ k) := by push_neg; omega
    rw [walk_append, h]
    dsimp only
    simp only [walk]
    dsimp only [Value.asArr]
    rw [if_neg hb, hv, Nat.zero_add]

/-- Witness for C6: index 1 into the one-element array root is exactly
at the length, and fails as out of bounds at position 0. -/
theorem c6_witness :
    GetPropertyWithType (Value.arr [Value.null]) "" [GoKey.intKey 1]
      = some (Except.error (GoError.keyError "Array index out of bounds" 0 "1")) := by
  have h := (c6_array_index_bounds (Value.arr [Value.null]) "" [] [] 1 [Value.null]
      "" false true rfl).1 (by decide)
  simpa using h

/-- C7: after a successfully resolved prefix, an integer segment on a
non-array value fails with "No array found", a string segment on a
non-object value fails with "No object found", and a string key absent
from the object fails with "Object property not found" — each at the
segment's position `pre.length` with the segment's stringified key. -/
theorem c7_wrong_container_errors (r : Value) (d : String) (pre rest : List GoKey)
    (v : Value) (sk : String) (rn e2 : Bool)
    (h : walk pre 0 (initSt r) = some (Except.ok ⟨v, sk, rn, e2⟩)) :
    (∀ k : Int, v.asArr = none →
      GetPropertyWithType r d (pre ++ GoKey.intKey k :: rest) =
        some (Except.error (GoError.keyError "No array found" pre.length (toString k))))
    ∧ (∀ s : String, v.asObj = none →
      GetPropertyWithType r d (pre ++ GoKey.strKey s :: rest) =
        some (Except.error (GoError.keyError "No object found" pre.length s)))
    ∧ (∀ (s : String) (m : List (String × Value)), v.asObj = some m → lookupGo m s = none →
      GetPropertyWithType r d (pre ++ GoKey.strKey s :: rest) =
        some (Except.error (GoError.keyError "Object property not found" pre.length s))) := by
  refine ⟨?_, ?_, ?_⟩
  · intro k hA
    have hw : walk (pre ++ GoKey.intKey k :: rest) 0 (initSt r)
        = some (Except.error (GoError.keyError "No array found" pre.length (toString k))) := by
      rw [walk_append, h]
      dsimp only
      simp only [walk]
      rw [hA, Nat.zero_add]
    simp [GetPropertyWithType, hw]
  · intro s hO
    have hw : walk (pre ++ GoKey.strKey s :: rest) 0 (initSt r)
        = some (Except.error (GoError.keyError "No object found" pre.length s)) := by
      rw [walk_append, h]
      dsimp only
      simp only [walk]
      rw [hO, Nat.zero_add]
    simp [GetPropertyWithType, hw]
  · intro s m hO hL
    have hw : walk (pre ++ GoKey.strKey s :: rest) 0 (initSt r)
        = some (Except.error (GoError.keyError "Object property not found" pre.length s)) := by
      rw [walk_append, h]
      dsimp only
      simp only [walk]
      rw [hO]
      dsimp only
      rw [hL, Nat.zero_add]
    simp [GetPropertyWithType, hw]

/-- Witness for C7: a string key into a number root fails with "No
object found" at position 0, carrying the key. -/
theorem c7_witness :
    GetPropertyWithType (Value.number "5") "" [GoKey.strKey "a"]
      = some (Except.error (GoError.keyError "No object found" 0 "a")) := by
  have h := (c7_wrong_container_errors (Value.number "5") "" [] [] (Value.number "5")
      "" false true rfl).2.1 "a" rfl
  simpa using h

/-- C10 (amended): prefixing the path with an Option value other than
`ErrorOnNull` is consumed silently — no error at its own position, no
flag change, and an unchanged result whenever the traversal of the
rest succeeds (or ends in a `NullError`) — but the reported index of a
failing later segment shifts up by one, so the result is not unchanged
in general. -/
theorem c10_unknown_option_shifts_index (r : Value) (d : String) (keys : List GoKey) (o : Int)
    (ho : o ≠ 1) :
    GetPropertyWithType r d (GoKey.optKey o :: keys) =
      match walk keys 0 (initSt r) with
      | some (Except.error (GoError.keyError m j k2)) =>
        some (Except.error (GoError.keyError m (j + 1) k2))
      | _ => GetPropertyWithType r d keys := by
  have h1 : walk (GoKey.optKey o :: keys) 0 (initSt r) = walk keys 1 (initSt r) := by
    simp [walk, initSt, ho]
  have h2 : walk keys 1 (initSt r) = shiftRes (walk keys 0 (initSt r)) := walk_shift keys 0 _
  cases hw : walk keys 0 (initSt r) with
  | none =>
    simp only [GetPropertyWithType, h1, h2, hw, shiftRes]
  | some res =>
    cases res with
    | error e =>
      cases e with
      | keyError m j k2 =>
        simp only [GetPropertyWithType, h1, h2, hw, shiftRes, shiftErr]
      | nullError k2 =>
        simp only [GetPropertyWithType, h1, h2, hw, shiftRes, shiftErr]
      | numError a b c =>
        simp only [GetPropertyWithType, h1, h2, hw, shiftRes, shiftErr]
    | ok st =>
      simp only [GetPropertyWithType, h1, h2, hw, shiftRes]

/-- Witness for C10: prefixing Option 2 before a failing string key at
a number root reports the same error one position later. -/
theorem c10_witness :
    GetPropertyWithType (Value.number "5") "" [GoKey.optKey 2, GoKey.strKey "a"]
      = some (Except.error (GoError.keyError "No object found" 1 "a")) := by
  rw [c10_unknown_option_shifts_index (Value.number "5") "" [GoKey.strKey "a"] 2 (by decide)]
  rfl

/-- C10 counterexample: prefixing the unrecognized Option 2 before the
keys does change the result of the untyped accessor — the failing
segment's reported index moves from 0 to 1. -/
theorem c10_counterexample :
    GetProperty (Value.number "5") [GoKey.strKey "a"]
      = some (Except.error (GoError.keyError "No object found" 0 "a"))
    ∧ GetProperty (Value.number "5") [GoKey.optKey 2, GoKey.strKey "a"]
      = some (Except.error (GoError.keyError "No object found" 1 "a"))
    ∧ GetProperty (Value.number "5") [GoKey.optKey 2, GoKey.strKey "a"]
      ≠ GetProperty (Value.number "5") [GoKey.strKey "a"] := by
  refine ⟨rfl, rfl, fun hc => ?_⟩
  have h2 : (some (Except.error (GoError.keyError "No object found" 1 "a")) :
      Option (Except GoError Value))
      = some (Except.error (GoError.keyError "No object found" 0 "a")) := hc
  simp at h2

/-- C4: `GetPropertyWithType` fails with the resolution error "Options
must be specified before the actual keys" at index i exactly when the
first i segments process successfully, at least one of them is
navigational (a string key or integer index), and segment i is an
Option; and an `ErrorOnNull` placed at the head (before all other
segments) causes no failure at its own position and only acts at final
resolution, turning a resolved null into a `NullError` and leaving
every other outcome of the rest of the path unchanged. -/
theorem c4_options_precede_keys (r : Value) (d : String) (keys : List GoKey) (i : Nat) :
    ((∃ key2, GetPropertyWithType r d keys =
        some (Except.error
          (GoError.keyError "Options must be specified before the actual keys" i key2)))
      ↔ (∃ pre o rest, keys = pre ++ GoKey.optKey o :: rest ∧ pre.length = i ∧
          (∃ st2, walk pre 0 (initSt r) = some (Except.ok st2)) ∧
          ∃ g ∈ pre, navStr g ≠ none))
    ∧ (∀ v sk e2, walk keys 0 (initSt r) = some (Except.ok ⟨v, sk, false, e2⟩) →
        GetPropertyWithType r d (GoKey.optKey 1 :: keys) =
          if v.isNull then some (Except.error (GoError.nullError sk))
          else GetPropertyWithType r d keys) := by
  constructor
  · constructor
    · rintro ⟨key2, hres⟩
      cases hw : walk keys 0 (initSt r) with
      | none => simp [GetPropertyWithType, hw] at hres
      | some res =>
        cases res with
        | error e =>
          simp only [GetPropertyWithType, hw] at hres
          simp only [Option.some.injEq, Except.error.injEq] at hres
          subst hres
          obtain ⟨pre, o, rest2, hkeys, hi, hkey, st2, hpre, heo⟩ :=
            walk_order_err keys 0 (initSt r) i key2 hw
          refine ⟨pre, o, rest2, hkeys, by omega, ⟨st2, hpre⟩, ?_⟩
          obtain ⟨-, -, h3⟩ := walk_state pre 0 (initSt r) st2 hpre
          by_contra hall
          push_neg at hall
          have : st2.eo = true := h3.mpr ⟨rfl, hall⟩
          rw [heo] at this
          cases this
        | ok st =>
          simp only [GetPropertyWithType, hw] at hres
          by_cases h1 : ((!typeOk d st.cur) && (!st.cur.isNull)) = true
          · rw [if_pos h1] at hres
            simp only [Option.some.injEq, Except.error.injEq, GoError.keyError.injEq] at hres
            exact absurd hres.1 (typeMsg_ne d)
          · rw [if_neg h1] at hres
            by_cases h2 : (st.cur.isNull && st.ren) = true
            · rw [if_pos h2] at hres
              simp at hres
            · rw [if_neg h2] at hres
              simp at hres
    · rintro ⟨pre, o, rest2, hkeys, hi, ⟨st2, hpre⟩, g, hg, hnav⟩
      obtain ⟨-, -, h3⟩ := walk_state pre 0 (initSt r) st2 hpre
      have heo : st2.eo = false := by
        cases he2 : st2.eo
        · rfl
        · exact absurd ((h3.mp he2).2 g hg) hnav
      have hw : walk keys 0 (initSt r) =
          some (Except.error
            (GoError.keyError "Options must be specified before the actual keys" i (optKeyStr o))) := by
        rw [hkeys, walk_append, hpre]
        dsimp only
        simp only [walk]
        rw [heo]
        rw [if_neg (by simp), Nat.zero_add, hi]
      exact ⟨optKeyStr o, by simp [GetPropertyWithType, hw]⟩
  · intro v sk e2 h
    have hh : walk keys 0 ⟨r, "", false, true⟩ = some (Except.ok ⟨v, sk, false, e2⟩) := h
    have hpref : walk (GoKey.optKey 1 :: keys) 0 (initSt r) = some (Except.ok ⟨v, sk, true, e2⟩) := by
      have e1 : walk (GoKey.optKey 1 :: keys) 0 (initSt r) = walk keys 1 ⟨r, "", true, true⟩ := by
        simp [walk, initSt]
      rw [e1, walk_shift, walk_ren_true, hh]
      rfl
    cases hn : v.isNull with
    | true =>
      have hv : v = Value.null := by
        cases v <;> first | rfl | simp [Value.isNull] at hn
      subst hv
      simp [GetPropertyWithType, hpref, Value.isNull]
    | false =>
      rw [if_neg (show ¬((false : Bool) = true) by simp)]
      simp only [GetPropertyWithType, hpref, h]
      by_cases h1 : ((!typeOk d v) && (!v.isNull)) = true
      · rw [if_pos h1, if_pos h1]
      · rw [if_neg h1, if_neg h1, hn]
        simp

/-- Witness for C4: `ErrorOnNull` at the head of the path is consumed
without error and turns the null root into a `NullError` at final
resolution. -/
theorem c4_witness :
    GetPropertyWithType Value.null "" [GoKey.optKey 1]
      = some (Except.error (GoError.nullError "")) := by
  have h := (c4_options_precede_keys Value.null "" [] 0).2 Value.null "" true rfl
  simpa using h

theorem mantVal_int (neg : Bool) (ds : List Char) :
    mantVal neg ds [] 0 = (cond neg (-1) 1) * (decDigitsVal ds : ℚ) := by
  simp [mantVal, decDigitsVal]

theorem goParseInt64_ok_value (s : String) (n : Int) (hn2 : goParseInt64 s = Except.ok n) :
    jsonNumValueQ s = some ((n : Int) : ℚ) ∧ -(2 ^ 63) ≤ n ∧ n < 2 ^ 63 := by
  cases hcs : s.toList with
  | nil => simp only [goParseInt64, hcs] at hn2; simp at hn2
  | cons c rest =>
    simp only [goParseInt64, hcs] at hn2
    by_cases hg : ((if c = '+' ∨ c = '-' then rest else c :: rest).isEmpty
        || !((if c = '+' ∨ c = '-' then rest else c :: rest).all Char.isDigit)) = true
    · rw [if_pos hg] at hn2; simp at hn2
    · rw [if_neg hg] at hn2
      simp only [Bool.or_eq_true, Bool.not_eq_true', not_or, Bool.not_eq_true] at hg
      obtain ⟨hne, hdig⟩ := hg
      have hall : ∀ x ∈ (if c = '+' ∨ c = '-' then rest else c :: rest), Char.isDigit x := by
        simpa using hdig
      have htw : (if c = '+' ∨ c = '-' then rest else c :: rest).takeWhile Char.isDigit
          = (if c = '+' ∨ c = '-' then rest else c :: rest) :=
        List.takeWhile_eq_self_iff.mpr hall
      have hdw : (if c = '+' ∨ c = '-' then rest else c :: rest).dropWhile Char.isDigit = [] :=
        List.dropWhile_eq_nil_iff.mpr hall
      have hq : jsonNumValueQ s
          = some (mantVal (decide (c = '-'))
              (if c = '+' ∨ c = '-' then rest else c :: rest) [] 0) := by
        simp only [jsonNumValueQ, hcs, htw, hdw]
        rw [if_neg (by simpa [List.isEmpty_iff] using hne)]
      by_cases hneg : c = '-'
      · rw [if_pos hneg] at hn2
        by_cases hr : 2 ^ 63 < decDigitsVal (if c = '+' ∨ c = '-' then rest else c :: rest)
        · rw [if_pos hr] at hn2; simp at hn2
        · rw [if_neg hr] at hn2
          simp only [Except.ok.injEq] at hn2
          subst hn2
          push_neg at hr
          have hd : (decDigitsVal (if c = '+' ∨ c = '-' then rest else c :: rest) : Int)
              ≤ 2 ^ 63 := by exact_mod_cast hr
          have h0 : (0 : Int)
              ≤ (decDigitsVal (if c = '+' ∨ c = '-' then rest else c :: rest) : Int) :=
            Int.natCast_nonneg _
          have hp : (0 : Int) < 2 ^ 63 := by positivity
          refine ⟨?_, by linarith, by linarith⟩
          rw [hq, mantVal_int]
          simp [hneg]
      · rw [if_neg hneg] at hn2
        by_cases hr : 2 ^ 63 ≤ decDigitsVal (if c = '+' ∨ c = '-' then rest else c :: rest)
        · rw [if_pos hr] at hn2; simp at hn2
        · rw [if_neg hr] at hn2
          simp only [Except.ok.injEq] at hn2
          subst hn2
          push_neg at hr
          have hd : (decDigitsVal (if c = '+' ∨ c = '-' then rest else c :: rest) : Int)
              < 2 ^ 63 := by exact_mod_cast hr
          have h0 : (0 : Int)
              ≤ (decDigitsVal (if c = '+' ∨ c = '-' then rest else c :: rest) : Int) :=
            Int.natCast_nonneg _
          have hp : (0 : Int) < 2 ^ 63 := by positivity
          refine ⟨?_, by linarith, by linarith⟩
          rw [hq, mantVal_int]
          simp [hneg]

/-- C8 (amended): `GetInt` is `GetNumber` followed by
`strconv.ParseInt(s, 10, 64)`.  Errors of `GetNumber` propagate
unchanged; the conversion step fails with a `NumError` — a kind
distinct from `KeyError` and `NullError` — whenever the text is not an
optionally signed decimal digit string whose value fits in int64
(which includes integral-valued exponent forms such as "1e3", beyond
the claim's fractional-part and overflow cases); on success it returns
exactly the integer the text denotes, which lies in int64 range. -/
theorem c8_getint_is_number_then_parseint (r : Value) (keys : List GoKey) :
    (∀ e, GetNumber r keys = some (Except.error e) → GetInt r keys = some (Except.error e))
    ∧ (∀ s, GetNumber r keys = some (Except.ok s) → GetInt r keys = some (goParseInt64 s))
    ∧ (∀ s e, goParseInt64 s = Except.error e →
        ∃ kind, e = GoError.numError "ParseInt" s kind)
    ∧ (∀ s n, goParseInt64 s = Except.ok n →
        jsonNumValueQ s = some ((n : Int) : ℚ) ∧ -(2 ^ 63) ≤ n ∧ n < 2 ^ 63) := by
  refine ⟨?_, ?_, ?_, fun s n h => goParseInt64_ok_value s n h⟩
  · intro e he
    simp only [GetInt, he]
  · intro s hs
    simp only [GetInt, hs]
  · intro s e he
    cases hcs : s.toList with
    | nil =>
      simp only [goParseInt64, hcs, Except.error.injEq] at he
      exact ⟨"invalid syntax", he.symm⟩
    | cons c rest =>
      simp only [goParseInt64, hcs] at he
      by_cases hg : ((if c = '+' ∨ c = '-' then rest else c :: rest).isEmpty
          || !((if c = '+' ∨ c = '-' then rest else c :: rest).all Char.isDigit)) = true
      · rw [if_pos hg] at he
        simp only [Except.error.injEq] at he
        exact ⟨"invalid syntax", he.symm⟩
      · rw [if_neg hg] at he
        by_cases hneg : c = '-'
        · rw [if_pos hneg] at he
          by_cases hr : 2 ^ 63 < decDigitsVal (if c = '+' ∨ c = '-' then rest else c :: rest)
          · rw [if_pos hr] at he
            simp only [Except.error.injEq] at he
            exact ⟨"value out of range", he.symm⟩
          · rw [if_neg hr] at he; simp at he
        · rw [if_neg hneg] at he
          by_cases hr : 2 ^ 63 ≤ decDigitsVal (if c = '+' ∨ c = '-' then rest else c :: rest)
          · rw [if_pos hr] at he
            simp only [Except.error.injEq] at he
            exact ⟨"value out of range", he.symm⟩
          · rw [if_neg hr] at he; simp at he

/-- Witness for C8: a plain decimal text converts to the exact
integer. -/
theorem c8_witness :
    GetInt (Value.number "42") [] = some (Except.ok 42)
    ∧ jsonNumValueQ "42" = some ((42 : Int) : ℚ) := by
  constructor
  · have h := (c8_getint_is_number_then_parseint (Value.number "42") []).2.1 "42" rfl
    rw [h]; rfl
  · have h := (c8_getint_is_number_then_parseint (Value.number "42") []).2.2.2 "42" 42 (by rfl)
    exact h.1

/-- C8 counterexample: the text "1e3" denotes the integer 1000, well
inside int64 range with no fractional part and no overflow, yet
`GetInt` does not return it — `strconv.ParseInt` rejects the exponent
form with a syntax error. -/
theorem c8_counterexample :
    GetNumber (Value.number "1e3") [] = some (Except.ok "1e3")
    ∧ jsonNumValueQ "1e3" = some ((1000 : Int) : ℚ)
    ∧ GetInt (Value.number "1e3") []
        = some (Except.error (GoError.numError "ParseInt" "1e3" "invalid syntax")) := by
  refine ⟨rfl, ?_, rfl⟩
  have h1 : jsonNumValueQ "1e3" = some (mantVal false ['1'] [] 3) := rfl
  have h2 : decDigitsVal ['1'] = 1 := rfl
  have h3 : decDigitsVal ([] : List Char) = 0 := rfl
  rw [h1, mantVal, h2, h3]
  norm_num

end EzJson
